import Mathlib

/-!
Verification development for the l10n/i18n issue-miner repository.

The definitions below are a shallow embedding of the two relevant source
files, mine_issues.py and clean_data.py.  Calendar dates are modelled as
integers (day numbers) where only their ordering and day arithmetic
matters; machine strings are Lean strings; the paginated HTTP fetch loop
is modelled against an oracle assigning a simulated response to each
request attempt, with the enrichment of a raw item abstracted to an
opaque item type (the enrichment functions themselves are embedded
separately below).
-/

/-! ## Search terms and term detection (mine_issues.py) -/

/-- The configured search terms of mine_issues.py, in declared order. -/
def SEARCH_TERMS : List String :=
  ["i18n", "l10n", "localization", "internationalization", "translation",
   "missing translation", "mistranslation", "locale", "date format",
   "time format", "currency",
   "rtl", "right-to-left",
   "wrong translation", "not translated", "text direction", "mirrored layout"]

/-- Lowercasing of a string, character by character; models the Python
str.lower method on the ASCII texts the miner works with. -/
def lowerStr (s : String) : String :=
  ⟨s.data.map Char.toLower⟩

/-- Boolean substring occurrence: needle occurs contiguously in hay.
This models the Python expression needle in hay on strings. -/
def strOccurs (needle hay : String) : Bool :=
  hay.data.tails.any (fun s => needle.data.isPrefixOf s)

/-- Embedding of detect_search_terms from mine_issues.py: collect every
configured term whose lowercase form occurs in the lowercased text, then
append the triggering term if it is not already present. -/
def detect_search_terms (text term : String) : List String :=
  let found_terms := SEARCH_TERMS.filter (fun t => strOccurs (lowerStr t) (lowerStr text))
  if term ∈ found_terms then found_terms else found_terms ++ [term]

/-! ## The paginated fetch loop (fetch_issues_by_date in mine_issues.py) -/

/-- A simulated outcome of one HTTP search request: either the request
raised a transport-level exception, or it returned a status code
together with the list of (already enriched) items of its payload. -/
inductive SimResponse (α : Type) where
  | transportError : SimResponse α
  | response (status : Nat) (items : List α) : SimResponse α
deriving DecidableEq

/-- Observable trace of one run of the fetch loop: the accumulated
items, the number of 60-second rate-limit cooldown sleeps performed,
and the sequence of page numbers that were requested, in order. -/
structure FetchTrace (α : Type) where
  issues : List α
  cooldowns : Nat
  requestedPages : List Nat
deriving DecidableEq

/-- Embedding of the body of the loop for page in range(1, MAX_PAGES + 1)
of fetch_issues_by_date.  The oracle maps the index of each request
attempt to its simulated response.  Arm by arm, following the source:
a transport exception prints and continues (which in a Python for loop
advances to the next page number); status 403 sleeps 60 seconds and
continues (likewise advancing); any other non-200 status breaks; an
empty item list breaks; otherwise the items are appended and the loop
advances.  The remaining argument counts the page numbers still
available to the for loop. -/
def fetchGo {α : Type} (oracle : Nat → SimResponse α) :
    Nat → Nat → Nat → List α → Nat → List Nat → FetchTrace α
  | 0, _, _, acc, cool, pages => ⟨acc, cool, pages⟩
  | remaining + 1, page, attempt, acc, cool, pages =>
    match oracle attempt with
    | SimResponse.transportError =>
        fetchGo oracle remaining (page + 1) (attempt + 1) acc cool (pages ++ [page])
    | SimResponse.response status items =>
        if status = 403 then
          fetchGo oracle remaining (page + 1) (attempt + 1) acc (cool + 1) (pages ++ [page])
        else if status ≠ 200 then ⟨acc, cool, pages ++ [page]⟩
        else if items.isEmpty then ⟨acc, cool, pages ++ [page]⟩
        else fetchGo oracle remaining (page + 1) (attempt + 1) (acc ++ items) cool (pages ++ [page])

/-- Embedding of fetch_issues_by_date for one (term, window) pair: run
the page loop from page 1 with maxPages page numbers available. -/
def fetch_issues_by_date {α : Type} (maxPages : Nat) (oracle : Nat → SimResponse α) :
    FetchTrace α :=
  fetchGo oracle maxPages 1 0 [] 0 []

/-! ## The window planner (inner while loop of main in mine_issues.py) -/

/-- Embedding of interval_start = max(q_start, current_start -
timedelta(days = DATE_INTERVAL_DAYS - 1)) with dates as integer day
numbers. -/
def windowStep (N qstart cur : Int) : Int :=
  max qstart (cur - (N - 1))

/-- Embedding of the while current_start >= q_start loop of main that
yields the date windows of one quarter, newest first.  The fuel
argument bounds the number of iterations; the Python loop terminates
for every interval length N of at least one, and planWindows below
supplies fuel that is then always sufficient. -/
def planWindowsAux (N qstart : Int) : Nat → Int → List (Int × Int)
  | 0, _ => []
  | fuel + 1, cur =>
    if qstart ≤ cur then
      (windowStep N qstart cur, cur) ::
        planWindowsAux N qstart fuel (windowStep N qstart cur - 1)
    else []

/-- The full window sequence of the quarter spanning day numbers qstart
through qend, as produced by main for interval length N. -/
def planWindows (N qstart qend : Int) : List (Int × Int) :=
  planWindowsAux N qstart (qend + 1 - qstart).toNat qend

/-! ## Quarter collection and deduplication (main in mine_issues.py) -/

/-- An enriched issue record as built inside fetch_issues_by_date; the
fields carried here are the ones the verified claims are about. -/
structure Issue where
  issue_id : Nat
  title : String
  url : String
  image_urls : List String
  search_terms_found : List String
deriving DecidableEq

/-- Embedding of the seen_urls / quarter_issues accumulation of main:
walk the incoming items in order, keep an item when its url has not
been seen, skip it silently otherwise. -/
def dedupAppend (seen : List String) : List Issue → List Issue
  | [] => []
  | i :: rest =>
    if i.url ∈ seen then dedupAppend seen rest
    else i :: dedupAppend (i.url :: seen) rest

/-- The raw item stream of one quarter in traversal order: windows in
the order the planner yields them (newest first), and for each window
the configured terms in declared order; fetch gives the enriched items
one (window, term) fetch returns. -/
def crawlStream (fetch : Int × Int → String → List Issue)
    (windows : List (Int × Int)) (terms : List String) : List Issue :=
  windows.flatMap (fun w => terms.flatMap (fun t => fetch w t))

/-- The quarter_issues list main has accumulated at the end of a
quarter: the traversal stream deduplicated by url, first writer wins. -/
def collectQuarter (fetch : Int × Int → String → List Issue)
    (windows : List (Int × Int)) (terms : List String) : List Issue :=
  dedupAppend [] (crawlStream fetch windows terms)

/-- Embedding of issues_with_images = the quarter issues whose
image_urls list is non-empty (Python truthiness of a list). -/
def issuesWithImages (l : List Issue) : List Issue :=
  l.filter (fun i => !i.image_urls.isEmpty)

/-- Embedding of the total_collected count passed to save_to_json:
the length of the deduplicated quarter_issues list. -/
def total_collected (quarterIssues : List Issue) : Nat :=
  quarterIssues.length

/-! ## Quarters, leap years and the year loop (main in mine_issues.py) -/

/-- The quarters table of main: (first month, last month) per quarter. -/
def quartersTable : List (Nat × Nat) :=
  [(1, 3), (4, 6), (7, 9), (10, 12)]

/-- Embedding of the leap-year test of main:
year % 4 == 0 and (year % 100 != 0 or year % 400 == 0). -/
def isLeapYear (y : Int) : Bool :=
  decide (y % 4 = 0) && (decide (y % 100 ≠ 0) || decide (y % 400 = 0))

/-- Embedding of the last-day computation of main for the final month
of a quarter: 31 for the long months, a leap-dependent value for
February, 30 otherwise. -/
def lastDayOfEndMonth (y : Int) (mEnd : Nat) : Nat :=
  if mEnd ∈ ([1, 3, 5, 7, 8, 10, 12] : List Nat) then 31
  else if mEnd = 2 then (if isLeapYear y then 29 else 28)
  else 30

/-- The first month of quarter q, read off the quarters table as
enumerate(quarters, start = 1) does. -/
def quarterStartMonth (q : Nat) : Nat :=
  (quartersTable.getD (q - 1) (0, 0)).1

/-- The last month of quarter q. -/
def quarterEndMonth (q : Nat) : Nat :=
  (quartersTable.getD (q - 1) (0, 0)).2

/-- The (month, day) pair main computes as q_end for quarter q of
year y. -/
def quarterEndDate (y : Int) (q : Nat) : Nat × Nat :=
  (quarterEndMonth q, lastDayOfEndMonth y (quarterEndMonth q))

/-- Reference definition following the words of the specification: the
true last calendar day of month m of year y in the Gregorian calendar,
to be compared with the computation embedded from the source. -/
def calendarLastDay (y : Int) (m : Nat) : Nat :=
  if m = 2 then (if isLeapYear y then 29 else 28)
  else if m ∈ ([4, 6, 9, 11] : List Nat) then 30
  else 31

/-- Default of the START_YEAR global of mine_issues.py, which is also
the argparse default of the start-year command line flag. -/
def START_YEAR : Int := 2025

/-- Default of the END_YEAR global of mine_issues.py, which is also
the argparse default of the end-year command line flag. -/
def END_YEAR : Int := 2015

/-- Embedding of range(endY, startY - 1, -1): the integers from endY
down to startY, descending; empty when endY < startY. -/
def yearRange (endY startY : Int) : List Int :=
  (List.range (endY + 1 - startY).toNat).map (fun i => endY - (i : Int))

/-- The year traversal main performs when no command line flags are
given: range(END_YEAR, START_YEAR - 1, -1) with both globals at their
defaults. -/
def defaultYearTraversal : List Int :=
  yearRange END_YEAR START_YEAR

/-- A date encoded as an integer key that is ordered exactly like the
date itself (month between 1 and 12, day between 1 and 31). -/
def dateKey (y : Int) (m d : Nat) : Int :=
  y * 10000 + (m : Int) * 100 + (d : Int)

/-- The quarter indices main processes within one year: the inner
quarter loop skips every index below start_quarter via continue, and
breaks at the first quarter whose start date lies after today. -/
def quartersForYear (startQuarter todayKey : Int) (y : Int) : List Nat :=
  (([1, 2, 3, 4] : List Nat).filter
      (fun q : Nat => !(decide ((q : Int) < startQuarter)))).takeWhile
    (fun q : Nat => !(decide (dateKey y (quarterStartMonth q) 1 > todayKey)))

/-- Every (year, quarter index) pair main processes, in processing
order, for the given year bounds, start quarter and current date. -/
def processedPairs (endY startY startQuarter todayKey : Int) : List (Int × Nat) :=
  (yearRange endY startY).flatMap
    (fun y => (quartersForYear startQuarter todayKey y).map (fun q => (y, q)))

/-! ## The cleaning-stage keyword filter (clean_data.py) -/

/-- The BUG_KEYWORDS list of clean_data.py as Python evaluates it: the
missing comma after the string not working makes the adjacent literals
not working and not translated fuse into one element. -/
def BUG_KEYWORDS : List String :=
  ["bug", "fix", "error", "fail", "failure", "issue", "problem",
   "broken", "incorrect", "wrong", "unexpected", "missing",
   "lost", "typo", "properly", "failing", "failed", "does not work",
   "doesn\x27t work", "not workingnot translated",
   "wrong translation", "missing translation",
   "mistranslation", "translation missing"]

/-- The keyword table of clean_data.py as listed in the source, one
element per quoted string literal: the reading the table documents as
intended, with not working and not translated as separate keywords. -/
def BUG_KEYWORDS_AS_LISTED : List String :=
  ["bug", "fix", "error", "fail", "failure", "issue", "problem",
   "broken", "incorrect", "wrong", "unexpected", "missing",
   "lost", "typo", "properly", "failing", "failed", "does not work",
   "doesn\x27t work", "not working", "not translated",
   "wrong translation", "missing translation",
   "mistranslation", "translation missing"]

/-- Embedding of contains_bug_keyword from clean_data.py: false on
empty text, otherwise true exactly when some element of the evaluated
keyword list occurs in the lowercased text. -/
def contains_bug_keyword (text : String) : Bool :=
  if text = "" then false
  else BUG_KEYWORDS.any (fun k => strOccurs k (lowerStr text))

/-! ## Concrete inputs used by witnesses and counterexamples -/

/-- A simulated response sequence whose first two requests are
throttled (status 403) and whose third succeeds with one item. -/
def throttleTwiceOracle : Nat → SimResponse Nat := fun k =>
  if k < 2 then SimResponse.response 403 [] else SimResponse.response 200 [7]

/-- A simulated response sequence whose first request fails at the
transport level and whose later requests succeed with one item. -/
def transportThenSuccessOracle : Nat → SimResponse Nat := fun k =>
  if k = 0 then SimResponse.transportError else SimResponse.response 200 [5]

/-- A concrete enriched issue carrying one image. -/
def sampleIssueA : Issue :=
  ⟨1, "menu not translated", "https://e/a/1", ["https://img/1.png"], ["not translated"]⟩

/-- A second enrichment of the same canonical url as sampleIssueA,
as a later (window, term) pair would produce it. -/
def sampleIssueA2 : Issue :=
  ⟨1, "menu not translated", "https://e/a/1", [], ["i18n", "not translated"]⟩

/-- A concrete enriched issue with no image. -/
def sampleIssueB : Issue :=
  ⟨2, "rtl layout broken", "https://e/b/2", [], ["rtl"]⟩

/-- A concrete fetch function: the newest window's first term yields
two issues, an older window's second term yields a duplicate of the
first url, everything else is empty. -/
def sampleFetch : Int × Int → String → List Issue := fun w t =>
  if w = (61, 90) ∧ t = "i18n" then [sampleIssueA, sampleIssueB]
  else if w = (31, 60) ∧ t = "l10n" then [sampleIssueA2]
  else []

/-! ## Theorems -/

/-- C1 (code evaluation at the failing input): the source handles a
throttling response with continue inside the for-page loop, so for the
simulated sequence throttled, throttled, success with the default
max_pages of 1 the pager performs one cooldown wait, never re-requests
page 1, and returns no items; even with a page budget of 3 it advances
through pages 2 and 3 during the throttled attempts instead of
retrying page 1. -/
theorem throttled_page_is_not_retried :
    fetch_issues_by_date 1 throttleTwiceOracle = ⟨[], 1, [1]⟩ ∧
    fetch_issues_by_date 3 throttleTwiceOracle = ⟨[7], 2, [1, 2, 3]⟩ := by
  decide

/-- C7 (code evaluation at the failing input): with no command line
flags the year loop is range(END_YEAR, START_YEAR - 1, -1) with the
argparse defaults START_YEAR = 2025 and END_YEAR = 2015, an empty
range, so no year at all is processed; the traversal 2025 down to 2015
the specification describes is what the swapped bounds would give. -/
theorem default_year_loop_is_empty :
    defaultYearTraversal = [] ∧
    yearRange 2025 2015 =
      [2025, 2024, 2023, 2022, 2021, 2020, 2019, 2018, 2017, 2016, 2015] := by
  decide

/-- C5 (counterexample): in the leap year 2024 the end date main
computes for Q1 is March 31, not February 29; the February branch of
the last-day computation is dead because no quarter ends in month 2. -/
theorem q1_end_is_march_not_february :
    isLeapYear 2024 = true ∧
    quarterEndDate 2024 1 ≠ (2, 29) ∧
    quarterEndDate 2024 1 = (3, 31) := by
  decide

/-- C5 (amended): every quarter's computed end date is the true last
calendar day of the quarter's final month, and since the final months
are 3, 6, 9 and 12, Q1's end date is March 31 in every year; the
leap-year February branch is never exercised. -/
theorem quarter_end_true_last_day (y : Int) (q : Nat)
    (hq : q ∈ ([1, 2, 3, 4] : List Nat)) :
    quarterEndDate y q = (quarterEndMonth q, calendarLastDay y (quarterEndMonth q)) ∧
    quarterEndDate y 1 = (3, 31) := by
  fin_cases hq <;> exact ⟨rfl, rfl⟩

/-- Witness for the amended C5 theorem at year 2024, quarter 1. -/
theorem quarter_end_true_last_day_witness :
    (1 ∈ ([1, 2, 3, 4] : List Nat)) ∧
    (quarterEndDate 2024 1 = (quarterEndMonth 1, calendarLastDay 2024 (quarterEndMonth 1)) ∧
     quarterEndDate 2024 1 = (3, 31)) :=
  ⟨by decide, quarter_end_true_last_day 2024 1 (by decide)⟩

/-- C6 (counterexample): with end year 2024, start year 2023 and start
quarter 3, the second processed year 2023 still skips quarters 1 and
2 — the skip rule is applied in every year, not only the first. -/
theorem start_quarter_skips_in_every_year :
    processedPairs 2024 2023 3 (dateKey 2030 1 1) =
      [(2024, 3), (2024, 4), (2023, 3), (2023, 4)] ∧
    (2023, 1) ∉ processedPairs 2024 2023 3 (dateKey 2030 1 1) ∧
    (2023, 3) ∈ processedPairs 2024 2023 3 (dateKey 2030 1 1) := by
  decide

/-- C6 (amended): every (year, quarter) pair the driver processes — in
whatever position the year occupies in the traversal — has a quarter
index of at least the configured start quarter, a year inside the
configured range, and a quarter start date not in the future. -/
theorem processed_pairs_respect_start_quarter
    (endY startY startQuarter todayKey y : Int) (q : Nat)
    (h : (y, q) ∈ processedPairs endY startY startQuarter todayKey) :
    startQuarter ≤ (q : Int) ∧ y ∈ yearRange endY startY ∧
    q ∈ ([1, 2, 3, 4] : List Nat) ∧
    dateKey y (quarterStartMonth q) 1 ≤ todayKey := by
  unfold processedPairs at h
  rw [List.mem_flatMap] at h
  obtain ⟨y', hy', hmem⟩ := h
  rw [List.mem_map] at hmem
  obtain ⟨q', hq', hpair⟩ := hmem
  obtain ⟨rfl, rfl⟩ : y' = y ∧ q' = q := by
    constructor <;> [exact congrArg Prod.fst hpair; exact congrArg Prod.snd hpair]
  have htake := List.mem_takeWhile_imp hq'
  have hfilter : q' ∈ ([1, 2, 3, 4] : List Nat).filter
      (fun q : Nat => !(decide ((q : Int) < startQuarter))) :=
    (List.takeWhile_sublist _).subset hq'
  rw [List.mem_filter] at hfilter
  refine ⟨?_, hy', hfilter.1, ?_⟩
  · have := hfilter.2
    simp only [Bool.not_eq_true', decide_eq_false_iff_not, not_lt] at this
    exact this
  · simp only [Bool.not_eq_true', decide_eq_false_iff_not, not_lt] at htake
    exact htake

/-- Witness for the amended C6 theorem: quarter 3 of the second
processed year 2023. -/
theorem processed_pairs_respect_start_quarter_witness :
    ((2023, 3) ∈ processedPairs 2024 2023 3 (dateKey 2030 1 1)) ∧
    (3 ≤ ((3 : Nat) : Int) ∧ (2023 : Int) ∈ yearRange 2024 2023 ∧
     (3 : Nat) ∈ ([1, 2, 3, 4] : List Nat) ∧
     dateKey 2023 (quarterStartMonth 3) 1 ≤ dateKey 2030 1 1) :=
  ⟨by decide, processed_pairs_respect_start_quarter 2024 2023 3 (dateKey 2030 1 1) 2023 3
    (by decide)⟩

/-- Structure of the fetch loop's request sequence: starting at any
page number, the pages actually requested form a consecutive ascending
run — no page number is ever requested twice, in particular no failed
page is retried. -/
theorem fetchGo_pages_consecutive {α : Type} (o : Nat → SimResponse α) :
    ∀ (r page attempt : Nat) (acc : List α) (cool : Nat) (pages : List Nat),
    ∃ k, k ≤ r ∧ (fetchGo o r page attempt acc cool pages).requestedPages =
      pages ++ List.range' page k := by
  intro r
  induction r with
  | zero =>
    intro page attempt acc cool pages
    exact ⟨0, Nat.le_refl 0, by simp [fetchGo]⟩
  | succ n ih =>
    intro page attempt acc cool pages
    cases horacle : o attempt with
    | transportError =>
      obtain ⟨k, hk, hpages⟩ := ih (page + 1) (attempt + 1) acc cool (pages ++ [page])
      refine ⟨k + 1, by omega, ?_⟩
      simp only [fetchGo, horacle]
      rw [hpages, List.range'_succ, List.append_assoc, List.singleton_append]
    | response status items =>
      by_cases h403 : status = 403
      · obtain ⟨k, hk, hpages⟩ := ih (page + 1) (attempt + 1) acc (cool + 1) (pages ++ [page])
        refine ⟨k + 1, by omega, ?_⟩
        simp only [fetchGo, horacle, if_pos h403]
        rw [hpages, List.range'_succ, List.append_assoc, List.singleton_append]
      · by_cases h200 : status ≠ 200
        · refine ⟨1, by omega, ?_⟩
          simp only [fetchGo, horacle, if_neg h403, if_pos h200]
          simp [List.range'_succ]
        · by_cases hempty : items.isEmpty
          · refine ⟨1, by omega, ?_⟩
            simp only [fetchGo, horacle, if_neg h403, if_pos hempty, if_neg h200]
            simp [List.range'_succ]
          · obtain ⟨k, hk, hpages⟩ :=
              ih (page + 1) (attempt + 1) (acc ++ items) cool (pages ++ [page])
            refine ⟨k + 1, by omega, ?_⟩
            simp only [fetchGo, horacle, if_neg h403, if_neg h200, if_neg hempty]
            rw [hpages, List.range'_succ, List.append_assoc, List.singleton_append]

/-- C4 (amended): on a transport-level failure the failed page is not
retried and contributes no items and no cooldown; the pager proceeds
with the next page number and the remaining page budget (so paging for
the term/window stops only when max_pages is exhausted or a later page
stops it).  The request sequence is a consecutive run of page numbers
starting at 1, so in particular the failed page is requested exactly
once. -/
theorem transport_failure_skips_page_only {α : Type} (o : Nat → SimResponse α) (m : Nat)
    (h : o 0 = SimResponse.transportError) :
    fetch_issues_by_date (m + 1) o = fetchGo o m 2 1 [] 0 [1] ∧
    ∃ k, 1 ≤ k ∧ k ≤ m + 1 ∧
      (fetch_issues_by_date (m + 1) o).requestedPages = List.range' 1 k := by
  have hstep : fetch_issues_by_date (m + 1) o = fetchGo o m 2 1 [] 0 [1] := by
    unfold fetch_issues_by_date
    simp only [fetchGo, h]
    rfl
  refine ⟨hstep, ?_⟩
  obtain ⟨k, hk, hp⟩ := fetchGo_pages_consecutive o m 2 1 [] 0 [1]
  refine ⟨k + 1, by omega, by omega, ?_⟩
  rw [hstep, hp, List.range'_succ, List.singleton_append]

/-- Witness for the amended C4 theorem: a transport failure on the
first request with a page budget of 2. -/
theorem transport_failure_skips_page_only_witness :
    transportThenSuccessOracle 0 = SimResponse.transportError ∧
    (fetch_issues_by_date 2 transportThenSuccessOracle =
        fetchGo transportThenSuccessOracle 1 2 1 [] 0 [1] ∧
     ∃ k, 1 ≤ k ∧ k ≤ 2 ∧
       (fetch_issues_by_date 2 transportThenSuccessOracle).requestedPages =
         List.range' 1 k) :=
  ⟨rfl, transport_failure_skips_page_only transportThenSuccessOracle 1 rfl⟩

/-- C4 (counterexample): with a page budget of 2, a transport failure
on page 1 does not stop paging for the term/window — page 2 is still
requested and its item is returned, so the remainder is not treated as
empty. -/
theorem transport_failure_does_not_stop_paging :
    (fetch_issues_by_date 2 transportThenSuccessOracle).issues = [5] ∧
    (fetch_issues_by_date 2 transportThenSuccessOracle).requestedPages = [1, 2] := by
  decide

/-- C8: every issue in the persisted set of a quarter has a non-empty
image_urls list, and the persisted set is no larger than the
total_collected count of all deduplicated issues of the quarter. -/
theorem kept_issues_have_images (fetch : Int × Int → String → List Issue)
    (windows : List (Int × Int)) (terms : List String) (i : Issue)
    (h : i ∈ issuesWithImages (collectQuarter fetch windows terms)) :
    i.image_urls ≠ [] ∧
    (issuesWithImages (collectQuarter fetch windows terms)).length ≤
      total_collected (collectQuarter fetch windows terms) := by
  constructor
  · have hmem := (List.mem_filter.mp h).2
    simpa using hmem
  · exact List.length_filter_le _ _

/-- Witness for the C8 theorem on a concrete quarter with one issue
carrying an image and one without. -/
theorem kept_issues_have_images_witness :
    (sampleIssueA ∈
      issuesWithImages (collectQuarter sampleFetch [(61, 90), (31, 60)] ["i18n", "l10n"])) ∧
    (sampleIssueA.image_urls ≠ [] ∧
     (issuesWithImages (collectQuarter sampleFetch [(61, 90), (31, 60)] ["i18n", "l10n"])).length ≤
       total_collected (collectQuarter sampleFetch [(61, 90), (31, 60)] ["i18n", "l10n"])) :=
  ⟨by decide, kept_issues_have_images sampleFetch [(61, 90), (31, 60)] ["i18n", "l10n"]
    sampleIssueA (by decide)⟩

/-- Every element the deduplication emits comes from the input stream
and its url was not among the already seen urls. -/
theorem dedupAppend_mem : ∀ (seen : List String) (s : List Issue) (i : Issue),
    i ∈ dedupAppend seen s → i ∈ s ∧ i.url ∉ seen := by
  intro seen s
  induction s generalizing seen with
  | nil => intro i h; simp [dedupAppend] at h
  | cons a rest ih =>
    intro i h
    by_cases ha : a.url ∈ seen
    · rw [dedupAppend, if_pos ha] at h
      obtain ⟨h1, h2⟩ := ih seen i h
      exact ⟨List.mem_cons_of_mem _ h1, h2⟩
    · rw [dedupAppend, if_neg ha] at h
      rcases List.mem_cons.mp h with rfl | h'
      · exact ⟨List.mem_cons_self _ _, ha⟩
      · obtain ⟨h1, h2⟩ := ih (a.url :: seen) i h'
        exact ⟨List.mem_cons_of_mem _ h1, fun hc => h2 (List.mem_cons_of_mem _ hc)⟩

/-- The urls of the deduplicated list contain no duplicates. -/
theorem dedupAppend_nodup : ∀ (seen : List String) (s : List Issue),
    ((dedupAppend seen s).map Issue.url).Nodup := by
  intro seen s
  induction s generalizing seen with
  | nil => simp [dedupAppend]
  | cons a rest ih =>
    by_cases ha : a.url ∈ seen
    · rw [dedupAppend, if_pos ha]; exact ih seen
    · rw [dedupAppend, if_neg ha, List.map_cons, List.nodup_cons]
      refine ⟨?_, ih (a.url :: seen)⟩
      intro hmem
      rw [List.mem_map] at hmem
      obtain ⟨j, hj, hju⟩ := hmem
      exact (dedupAppend_mem _ _ _ hj).2 (by rw [hju]; exact List.mem_cons_self _ _)

/-- For a url not yet seen, the first element of the deduplicated list
carrying it is exactly the first element of the input stream carrying
it. -/
theorem dedupAppend_find (u : String) : ∀ (seen : List String) (s : List Issue),
    u ∉ seen →
    (dedupAppend seen s).find? (fun i => i.url == u) =
      s.find? (fun i => i.url == u) := by
  intro seen s
  induction s generalizing seen with
  | nil => intro _; simp [dedupAppend]
  | cons a rest ih =>
    intro hu
    by_cases ha : a.url ∈ seen
    · rw [dedupAppend, if_pos ha]
      have hne : (a.url == u) = false := by
        rw [beq_eq_false_iff_ne]
        intro hc; exact hu (hc ▸ ha)
      simp only [List.find?, hne]
      exact ih seen hu
    · rw [dedupAppend, if_neg ha]
      cases hpa : a.url == u with
      | true => simp only [List.find?, hpa]
      | false =>
        simp only [List.find?, hpa]
        refine ih (a.url :: seen) ?_
        intro hc
        rcases List.mem_cons.mp hc with rfl | h'
        · rw [beq_eq_false_iff_ne] at hpa
          exact hpa rfl
        · exact hu h'

/-- C3: a quarter's collected issue list contains each canonical url at
most once; for every url, the retained copy is the first enrichment of
the traversal stream (newest window first, then declared term order)
that carried it, kept verbatim — later duplicates are dropped
silently; and everything collected comes from the stream. -/
theorem quarter_dedup_first_writer_wins (fetch : Int × Int → String → List Issue)
    (windows : List (Int × Int)) (terms : List String) :
    ((collectQuarter fetch windows terms).map Issue.url).Nodup ∧
    (∀ u : String,
      (collectQuarter fetch windows terms).find? (fun i => i.url == u) =
        (crawlStream fetch windows terms).find? (fun i => i.url == u)) ∧
    ∀ i ∈ collectQuarter fetch windows terms, i ∈ crawlStream fetch windows terms := by
  refine ⟨dedupAppend_nodup [] _, fun u => dedupAppend_find u [] _ (by simp), ?_⟩
  intro i hi
  exact (dedupAppend_mem [] _ i hi).1

/-- Witness for the C3 theorem on a concrete quarter in which the same
url is met twice: the winner is the first enrichment met, the
duplicate's matched terms are not merged in. -/
theorem quarter_dedup_first_writer_wins_witness :
    (collectQuarter sampleFetch [(61, 90), (31, 60)] ["i18n", "l10n"] =
      [sampleIssueA, sampleIssueB]) ∧
    (((collectQuarter sampleFetch [(61, 90), (31, 60)] ["i18n", "l10n"]).map Issue.url).Nodup ∧
     (∀ u : String,
       (collectQuarter sampleFetch [(61, 90), (31, 60)] ["i18n", "l10n"]).find?
           (fun i => i.url == u) =
         (crawlStream sampleFetch [(61, 90), (31, 60)] ["i18n", "l10n"]).find?
           (fun i => i.url == u)) ∧
     ∀ i ∈ collectQuarter sampleFetch [(61, 90), (31, 60)] ["i18n", "l10n"],
       i ∈ crawlStream sampleFetch [(61, 90), (31, 60)] ["i18n", "l10n"]) :=
  ⟨by decide, quarter_dedup_first_writer_wins sampleFetch [(61, 90), (31, 60)] ["i18n", "l10n"]⟩

/-- C9: the matched-terms list contains exactly the configured terms
whose lowercase form occurs as a substring of the lowercased text,
together with the triggering term, which is present even when it does
not occur textually; all configured terms are consulted, not only the
triggering one. -/
theorem detect_terms_exact (text term t : String) :
    (t ∈ detect_search_terms text term ↔
      ((t ∈ SEARCH_TERMS ∧ strOccurs (lowerStr t) (lowerStr text) = true) ∨ t = term)) ∧
    term ∈ detect_search_terms text term := by
  have hiff : ∀ x : String,
      x ∈ SEARCH_TERMS.filter (fun s => strOccurs (lowerStr s) (lowerStr text)) ↔
        (x ∈ SEARCH_TERMS ∧ strOccurs (lowerStr x) (lowerStr text) = true) := by
    intro x; simp only [List.mem_filter]
  unfold detect_search_terms
  by_cases h : term ∈ SEARCH_TERMS.filter (fun s => strOccurs (lowerStr s) (lowerStr text))
  · rw [if_pos h]
    refine ⟨⟨fun ht => Or.inl ((hiff t).mp ht), ?_⟩, h⟩
    rintro (ht | rfl)
    · exact (hiff t).mpr ht
    · exact h
  · rw [if_neg h]
    constructor
    · rw [List.mem_append, List.mem_singleton]
      exact ⟨fun hc => hc.imp (hiff t).mp id, fun hc => hc.imp (hiff t).mpr id⟩
    · exact List.mem_append.mpr (Or.inr (List.mem_singleton.mpr rfl))

/-- The boolean substring test agrees with contiguous-sublist
containment of the character lists. -/
theorem strOccurs_iff (a b : String) : strOccurs a b = true ↔ a.data <:+: b.data := by
  unfold strOccurs
  rw [List.any_eq_true]
  constructor
  · rintro ⟨s, hs, hpre⟩
    rw [List.mem_tails] at hs
    rw [List.isPrefixOf_iff_prefix] at hpre
    exact hpre.isInfix.trans hs.isInfix
  · rintro ⟨s, t, hst⟩
    refine ⟨a.data ++ t, ?_, ?_⟩
    · rw [List.mem_tails]
      exact ⟨s, by rw [← List.append_assoc, hst]⟩
    · rw [List.isPrefixOf_iff_prefix]
      exact ⟨t, rfl⟩

/-- Occurrence is inherited downward along contiguous containment of
needles. -/
theorem strOccurs_of_infix {a b : String} (hab : a.data <:+: b.data) {c : String}
    (h : strOccurs b c = true) : strOccurs a c = true := by
  rw [strOccurs_iff] at h ⊢
  exact hab.trans h

/-- C10: the missing comma fuses the adjacent literals not working and
not translated into the single keyword not workingnot translated, so
neither phrase is an element of the evaluated keyword list, and any
text containing one of the two phrases but no other keyword of the
listed table fails the bug-keyword filter. -/
theorem missing_comma_disables_translation_keywords (text p : String)
    (hp : p ∈ (["not translated", "not working"] : List String))
    (hocc : strOccurs p (lowerStr text) = true)
    (hother : ∀ k ∈ BUG_KEYWORDS_AS_LISTED, k ≠ p → strOccurs k (lowerStr text) = false) :
    "not workingnot translated" ∈ BUG_KEYWORDS ∧
    "not translated" ∉ BUG_KEYWORDS ∧
    "not working" ∉ BUG_KEYWORDS ∧
    contains_bug_keyword text = false := by
  refine ⟨by decide, by decide, by decide, ?_⟩
  unfold contains_bug_keyword
  by_cases htext : text = ""
  · rw [if_pos htext]
  · rw [if_neg htext]
    have hall : ∀ k ∈ BUG_KEYWORDS, strOccurs k (lowerStr text) = false := by
      have hsplit : ∀ k ∈ BUG_KEYWORDS,
          k = "not workingnot translated" ∨
          (k ∈ BUG_KEYWORDS_AS_LISTED ∧ k ≠ "not translated" ∧ k ≠ "not working") := by
        decide
      intro k hk
      rcases hsplit k hk with rfl | ⟨hk1, hk2, hk3⟩
      · cases hb : strOccurs "not workingnot translated" (lowerStr text) with
        | false => rfl
        | true =>
          exfalso
          have hw : strOccurs "not working" (lowerStr text) = true :=
            strOccurs_of_infix (by decide) hb
          have ht : strOccurs "not translated" (lowerStr text) = true :=
            strOccurs_of_infix (by decide) hb
          rcases List.mem_cons.mp hp with rfl | hp'
          · have hfalse := hother "not working" (by decide) (by decide)
            rw [hfalse] at hw
            exact Bool.false_ne_true hw
          · rcases List.mem_cons.mp hp' with rfl | hp''
            · have hfalse := hother "not translated" (by decide) (by decide)
              rw [hfalse] at ht
              exact Bool.false_ne_true ht
            · simp at hp''
      · have hkp : k ≠ p := by
          rcases List.mem_cons.mp hp with rfl | hp'
          · exact hk2
          · rcases List.mem_cons.mp hp' with rfl | hp''
            · exact hk3
            · simp at hp''
        exact hother k hk1 hkp
    cases hany : BUG_KEYWORDS.any (fun k => strOccurs k (lowerStr text)) with
    | false => rfl
    | true =>
      exfalso
      rw [List.any_eq_true] at hany
      obtain ⟨k, hk, hks⟩ := hany
      rw [hall k hk] at hks
      exact Bool.false_ne_true hks

/-- Witness for the C10 theorem: a text containing the phrase not
translated and no other listed keyword is not recognised as carrying a
bug keyword. -/
theorem missing_comma_disables_translation_keywords_witness :
    (("not translated" : String) ∈ (["not translated", "not working"] : List String)) ∧
    strOccurs "not translated" (lowerStr "The menu is not translated") = true ∧
    (∀ k ∈ BUG_KEYWORDS_AS_LISTED, k ≠ "not translated" →
      strOccurs k (lowerStr "The menu is not translated") = false) ∧
    ("not workingnot translated" ∈ BUG_KEYWORDS ∧
     "not translated" ∉ BUG_KEYWORDS ∧
     "not working" ∉ BUG_KEYWORDS ∧
     contains_bug_keyword "The menu is not translated" = false) :=
  ⟨by decide, by decide, by decide,
    missing_comma_disables_translation_keywords "The menu is not translated" "not translated"
      (by decide) (by decide) (by decide)⟩

/-- The window loop yields nothing once the cursor has passed below
the quarter start, whatever fuel remains. -/
theorem planWindowsAux_nil (N qstart : Int) (fuel : Nat) (cur : Int) (h : cur < qstart) :
    planWindowsAux N qstart fuel cur = [] := by
  cases fuel with
  | zero => rfl
  | succ n => rw [planWindowsAux, if_neg (by omega)]

/-- Invariant of the window loop: run from any cursor at or above the
quarter start with sufficient fuel, the produced windows cover exactly
the days from the quarter start to the cursor, are ordered strictly
downward without overlap, stay within bounds and span at most N days
each, start (as a list) with a window ending at the cursor, and end
with a window starting at the quarter start. -/
theorem planWindowsAux_spec (N qstart : Int) (hN : 1 ≤ N) :
    ∀ (fuel : Nat), ∀ (cur : Int), qstart ≤ cur → (cur + 1 - qstart).toNat ≤ fuel →
    (∀ d : Int, (∃ w ∈ planWindowsAux N qstart fuel cur, w.1 ≤ d ∧ d ≤ w.2) ↔
        (qstart ≤ d ∧ d ≤ cur)) ∧
    (planWindowsAux N qstart fuel cur).Pairwise
        (fun w w' => w'.2 < w.1 ∧ w'.2 < w.2) ∧
    (∀ w ∈ planWindowsAux N qstart fuel cur,
        qstart ≤ w.1 ∧ w.1 ≤ w.2 ∧ w.2 ≤ cur ∧ w.2 - w.1 + 1 ≤ N) ∧
    ((planWindowsAux N qstart fuel cur).map Prod.snd).head? = some cur ∧
    ((planWindowsAux N qstart fuel cur).map Prod.fst).getLast? = some qstart := by
  intro fuel
  induction fuel with
  | zero =>
    intro cur hcur hfuel
    exfalso
    omega
  | succ f ih =>
    intro cur hcur hfuel
    have hs1 : qstart ≤ windowStep N qstart cur := le_max_left _ _
    have hs2 : windowStep N qstart cur ≤ cur := max_le hcur (by omega)
    have hmaxr : cur - (N - 1) ≤ windowStep N qstart cur := le_max_right _ _
    have hsN : cur - windowStep N qstart cur + 1 ≤ N := by omega
    rw [planWindowsAux, if_pos hcur]
    by_cases hsplit : windowStep N qstart cur - 1 < qstart
    · have hrest : planWindowsAux N qstart f (windowStep N qstart cur - 1) = [] :=
        planWindowsAux_nil N qstart f _ (by omega)
      rw [hrest]
      have hseq : windowStep N qstart cur = qstart := by omega
      refine ⟨?_, ?_, ?_, ?_, ?_⟩
      · intro d
        constructor
        · rintro ⟨w, hw, hd1, hd2⟩
          rcases List.mem_cons.mp hw with rfl | hw'
          · dsimp only at hd1 hd2
            omega
          · simp at hw'
        · rintro ⟨h1, h2⟩
          exact ⟨(windowStep N qstart cur, cur), List.mem_cons_self _ _, by dsimp only; omega, h2⟩
      · simp
      · intro w hw
        rcases List.mem_cons.mp hw with rfl | hw'
        · exact ⟨hs1, hs2, le_refl cur, hsN⟩
        · simp at hw'
      · rfl
      · rw [hseq]
        rfl
    · have hchoice : windowStep N qstart cur = qstart ∨
          windowStep N qstart cur = cur - (N - 1) := by
        unfold windowStep
        exact max_choice _ _
      have hsval : windowStep N qstart cur = cur - (N - 1) := by
        rcases hchoice with h | h
        · omega
        · exact h
      have hcur' : qstart ≤ windowStep N qstart cur - 1 := by omega
      have hfuel' : (windowStep N qstart cur - 1 + 1 - qstart).toNat ≤ f := by omega
      obtain ⟨ihcov, ihpw, ihbd, ihhead, ihlast⟩ := ih (windowStep N qstart cur - 1) hcur' hfuel'
      refine ⟨?_, ?_, ?_, ?_, ?_⟩
      · intro d
        constructor
        · rintro ⟨w, hw, hd1, hd2⟩
          rcases List.mem_cons.mp hw with rfl | hw'
          · dsimp only at hd1 hd2
            omega
          · have hind := (ihcov d).mp ⟨w, hw', hd1, hd2⟩
            omega
        · rintro ⟨h1, h2⟩
          by_cases hd : windowStep N qstart cur ≤ d
          · exact ⟨(windowStep N qstart cur, cur), List.mem_cons_self _ _, hd, h2⟩
          · obtain ⟨w, hw, hwd⟩ := (ihcov d).mpr ⟨h1, by omega⟩
            exact ⟨w, List.mem_cons_of_mem _ hw, hwd⟩
      · rw [List.pairwise_cons]
        refine ⟨?_, ihpw⟩
        intro w' hw'
        have hb := ihbd w' hw'
        have hb3 := hb.2.2.1
        constructor <;> dsimp only <;> omega
      · intro w hw
        rcases List.mem_cons.mp hw with rfl | hw'
        · exact ⟨hs1, hs2, le_refl cur, hsN⟩
        · have hb := ihbd w hw'
          have hb3 := hb.2.2.1
          exact ⟨hb.1, hb.2.1, by omega, hb.2.2.2⟩
      · rfl
      · have hne : planWindowsAux N qstart f (windowStep N qstart cur - 1) ≠ [] := by
          intro hnil
          rw [hnil] at ihhead
          simp at ihhead
        obtain ⟨x, t, hxt⟩ := List.exists_cons_of_ne_nil hne
        rw [hxt] at ihlast ⊢
        rw [List.map_cons, List.map_cons, List.getLast?_cons_cons, ← List.map_cons]
        exact ihlast

/-- C2: for every interval length N of at least one and every quarter
span, the planner's windows cover exactly the days from the quarter
start to the quarter end with no gap and no overlap, each window lies
inside the quarter and spans at most N days, the windows are yielded
in strictly descending end-date order, the first window ends at the
quarter end and the last window starts at the quarter start. -/
theorem planWindows_partition (N qstart qend : Int) (hN : 1 ≤ N) (hq : qstart ≤ qend) :
    (∀ d : Int, (∃ w ∈ planWindows N qstart qend, w.1 ≤ d ∧ d ≤ w.2) ↔
        (qstart ≤ d ∧ d ≤ qend)) ∧
    (planWindows N qstart qend).Pairwise (fun w w' => w'.2 < w.1 ∧ w'.2 < w.2) ∧
    (∀ w ∈ planWindows N qstart qend,
        qstart ≤ w.1 ∧ w.1 ≤ w.2 ∧ w.2 ≤ qend ∧ w.2 - w.1 + 1 ≤ N) ∧
    ((planWindows N qstart qend).map Prod.snd).Pairwise (fun a b => b < a) ∧
    ((planWindows N qstart qend).map Prod.snd).head? = some qend ∧
    ((planWindows N qstart qend).map Prod.fst).getLast? = some qstart := by
  obtain ⟨hcov, hpw, hbd, hhead, hlast⟩ :=
    planWindowsAux_spec N qstart hN ((qend + 1 - qstart).toNat) qend hq (le_refl _)
  refine ⟨hcov, hpw, hbd, ?_, hhead, hlast⟩
  rw [List.pairwise_map]
  exact hpw.imp (fun h => h.2)

/-- Witness for the C2 theorem on the 90-day quarter of days 1 to 90
with the default interval of 30 days. -/
theorem planWindows_partition_witness :
    (1 : Int) ≤ 30 ∧ (1 : Int) ≤ 90 ∧
    ((∀ d : Int, (∃ w ∈ planWindows 30 1 90, w.1 ≤ d ∧ d ≤ w.2) ↔
        (1 ≤ d ∧ d ≤ 90)) ∧
     (planWindows 30 1 90).Pairwise (fun w w' => w'.2 < w.1 ∧ w'.2 < w.2) ∧
     (∀ w ∈ planWindows 30 1 90,
        1 ≤ w.1 ∧ w.1 ≤ w.2 ∧ w.2 ≤ 90 ∧ w.2 - w.1 + 1 ≤ 30) ∧
     ((planWindows 30 1 90).map Prod.snd).Pairwise (fun a b => b < a) ∧
     ((planWindows 30 1 90).map Prod.snd).head? = some 90 ∧
     ((planWindows 30 1 90).map Prod.fst).getLast? = some 1) :=
  ⟨by decide, by decide, planWindows_partition 30 1 90 (by decide) (by decide)⟩
